import Mathlib

set_option maxHeartbeats 1000000

/-!
# Verification of the logcleaner log-trimming engine

Shallow embedding of the `cleanLog` engine of GSCloud/logcleaner
(`logcleaner.go`, latest revision: `copyFile`-based backup, `rollback`,
single-pass date-filter/grouping loop, tail trim, temp-file write and
atomic rename), together with theorems settling the specification claims.

Strings model Go strings (one `Char` per byte of the ASCII inputs in
question); file contents are raw strings; the file system is a partial
map from paths to contents.
-/

namespace Logcleaner

/-! ## Timestamps

Embedding of `time.Parse` restricted to the fixed layout
`"2006-01-02 15:04:05"` (the only layout `cleanLog` ever uses), and of
`time.Time.Before` on the values such a parse can produce.  `time.Parse`
demands exactly four year digits, two digits for each other component,
the exact separator characters, and in-range calendar values (month
1–12, day 1–days-in-month with leap years, hour ≤ 23, minute ≤ 59,
second ≤ 59); anything else is a parse error. -/

/-- A parsed wall-clock timestamp (the six fields the layout populates). -/
structure DateTime where
  year : Nat
  month : Nat
  day : Nat
  hour : Nat
  minute : Nat
  second : Nat
deriving DecidableEq, Repr

/-- Injective key for chronological comparison of in-range timestamps:
all coefficients strictly dominate the validated field ranges. -/
def DateTime.key (t : DateTime) : Nat :=
  ((((t.year * 13 + t.month) * 32 + t.day) * 24 + t.hour) * 60 + t.minute) * 60 + t.second

/-- `time.Time.Before` on parsed (hence range-validated) timestamps. -/
def DateTime.before (a b : DateTime) : Bool :=
  decide (a.key < b.key)

/-- Numeric value of a decimal digit character. -/
def dval (c : Char) : Nat := c.toNat - 48

/-- Gregorian leap-year rule (as in Go's `time` package). -/
def isLeap (y : Nat) : Bool :=
  (y % 4 == 0 && y % 100 != 0) || y % 400 == 0

/-- Days in a month, matching Go's `daysIn` used by `time.Parse` range checks. -/
def daysIn (y mo : Nat) : Nat :=
  if mo == 2 then (if isLeap y then 29 else 28)
  else if mo == 4 || mo == 6 || mo == 9 || mo == 11 then 30
  else 31

/-- `time.Parse("2006-01-02 15:04:05", s)`: succeeds iff `s` is exactly
19 characters `YYYY-MM-DD HH:MM:SS` with all-digit components, correct
separators and in-range calendar values. -/
def parseTs : List Char → Option DateTime
  | [y1, y2, y3, y4, '-', o1, o2, '-', d1, d2, ' ', h1, h2, ':', n1, n2, ':', s1, s2] =>
    if y1.isDigit ∧ y2.isDigit ∧ y3.isDigit ∧ y4.isDigit ∧
       o1.isDigit ∧ o2.isDigit ∧ d1.isDigit ∧ d2.isDigit ∧
       h1.isDigit ∧ h2.isDigit ∧ n1.isDigit ∧ n2.isDigit ∧
       s1.isDigit ∧ s2.isDigit then
      let y := ((dval y1 * 10 + dval y2) * 10 + dval y3) * 10 + dval y4
      let mo := dval o1 * 10 + dval o2
      let d := dval d1 * 10 + dval d2
      let h := dval h1 * 10 + dval h2
      let mi := dval n1 * 10 + dval n2
      let se := dval s1 * 10 + dval s2
      if 1 ≤ mo ∧ mo ≤ 12 ∧ 1 ≤ d ∧ d ≤ daysIn y mo ∧ h ≤ 23 ∧ mi ≤ 59 ∧ se ≤ 59 then
        some ⟨y, mo, d, h, mi, se⟩
      else none
    else none
  | _ => none

/-- The constant `logDateFormat` of `cleanLog`. -/
def logDateFormat : String := "2006-01-02 15:04:05"

/-! ## Line reading

`bufio.Scanner` with `bufio.ScanLines`: split on `'\n'`, strip one
trailing `'\r'` from each line, no trailing empty line for a trailing
newline, and a hard token cap of `bufio.MaxScanTokenSize = 64 KiB`
(the code never calls `Scanner.Buffer`, so the default cap applies);
a longer line surfaces as a scanner error. -/

/-- `bufio.dropCR`: strip one trailing carriage return. -/
def dropCR (l : List Char) : List Char :=
  if l.getLast? = some '\r' then l.dropLast else l

/-- Accumulating splitter: `cur` holds the current line reversed; a
newline emits the current line, and a final newline emits no empty line. -/
def splitLinesAux (cur : List Char) : List Char → List String
  | [] => [String.mk (dropCR cur.reverse)]
  | c :: rest =>
    if c = '\n' then
      match rest with
      | [] => [String.mk (dropCR cur.reverse)]
      | _ :: _ => String.mk (dropCR cur.reverse) :: splitLinesAux [] rest
    else splitLinesAux (c :: cur) rest

/-- All lines produced by the scanner loop of `cleanLog` (step 3). -/
def scanLines (s : String) : List String :=
  match s.data with
  | [] => []
  | c :: rest => splitLinesAux [] (c :: rest)

/-- Serialization of the final entries: `fmt.Fprintln` per entry. -/
def unlines (ls : List String) : String :=
  String.join (ls.map (fun l => l ++ "\n"))

/-- `bufio.MaxScanTokenSize`, the default scanner cap left in place by the code. -/
def maxScanTokenSize : Nat := 65536

/-- A line the default scanner cannot deliver (`bufio.ErrTooLong`). -/
def tooLong (l : String) : Bool := decide (maxScanTokenSize ≤ l.length)

/-! ## Date filtering and grouping (steps 4–5 of `cleanLog`)

The Go loop appends kept main lines to `filteredLines` and concatenates
every other line onto `filteredLines[lastKeptIndex]`, which is always
the most recently appended element.  We model `filteredLines` by an
accumulator kept in reverse: its head is the entry `lastKeptIndex`
points at, and the final value is reversed. -/

/-- The main-line test of the loop body: the line is long enough, its
19-byte prefix parses, and the parsed date is not before `minDate`. -/
def keepLine (minDate : DateTime) (line : String) : Bool :=
  if logDateFormat.length ≤ line.length then
    match parseTs (line.data.take logDateFormat.length) with
    | some d => !(d.before minDate)
    | none => false
  else false

/-- One iteration of the filtering loop (reverse accumulator). -/
def filterStep (minDate : DateTime) (acc : List String) (line : String) : List String :=
  if keepLine minDate line then line :: acc
  else
    match acc with
    | [] => []
    | e :: es => (e ++ " " ++ line) :: es

/-- Steps 4–5 of `cleanLog`: parse `dateFormat` against the layout; on
failure skip filtering (`filteredLines = allLines`), otherwise run the
grouping/filtering loop. -/
def filteredLines (dateFormat : String) (allLines : List String) : List String :=
  match parseTs dateFormat.data with
  | none => allLines
  | some minDate => (allLines.foldl (filterStep minDate) []).reverse

/-- Step 5/6 of `cleanLog`: keep only the last `maxRows` entries.
(`maxRows` is validated positive by the CLI layer; `Nat` suffices.) -/
def trimLines (maxRows : Nat) (ls : List String) : List String :=
  if maxRows < ls.length then ls.drop (ls.length - maxRows) else ls

/-! ## Substring containment (`strings.Contains`)

Executable check that one character list occurs contiguously inside
another; case-sensitive, as in Go. -/

/-- Does `h` start with `n` (`strings.HasPrefix` on byte lists)? -/
def leadMatch : List Char → List Char → Bool
  | [], _ => true
  | _ :: _, [] => false
  | a :: n, b :: h => a == b && leadMatch n h

/-- Does `n` occur contiguously inside the second list (`strings.Contains`)? -/
def isSeg (n : List Char) : List Char → Bool
  | [] => n.isEmpty
  | c :: t => leadMatch n (c :: t) || isSeg n t

/-- `strings.Contains(e, stub)` on strings. -/
def containsStub (stub e : String) : Bool := isSeg stub.data e.data

/-! ## Exclusion filter and spec-level filter pipeline

The `CleanOptions.Exclude` feature is exercised by the repository's
tests (`TestCleanLog_ExcludeFilter`, `TestCleanLog_ExcludeAndDateFilter`)
but the revision of `cleanLog` implementing it is not among the source
files; the definitions below follow the specification's words. -/

/-- Modelled from the spec: the exclusion filter of the Filter Pipeline
(the implementation behind `CleanOptions.Exclude` is missing from the
sources; only its tests exist).  "Drop any Entry whose merged text
contains any of the configured exclusion substrings (case-sensitive
substring match, OR semantics across multiple stubs)." -/
def excludeFilter (stubs : List String) (entries : List String) : List String :=
  entries.filter (fun e => !(stubs.any (fun s => containsStub s e)))

/-- Modelled from the spec: the standalone date filter of the Filter
Pipeline ("re-derive its leading timestamp the same way grouping did; an
Entry lacking a parseable leading timestamp is discarded...; an Entry is
kept iff its timestamp is not before the minimum"). -/
def dateFilterSpec (minDate : DateTime) (entries : List String) : List String :=
  entries.filter (fun e => keepLine minDate e)

/-- Modelled from the spec: the Filter Pipeline ordering, "exclusion
filtering runs before date filtering". -/
def filterPipeline (stubs : List String) (minDate : DateTime)
    (entries : List String) : List String :=
  dateFilterSpec minDate (excludeFilter stubs entries)

/-! ## File system model and the I/O envelope of `cleanLog`

A file system is a partial map from paths to raw contents.  I/O faults
that depend on the environment (permissions, disk full, ...) are
injected through a `Faults` record, one flag per fallible operation of
`cleanLog`; renames performed by `rollback` on files this run created
are modelled as succeeding, which is the regime the spec's failure
taxonomy describes (its one rollback-local failure, the safety copy,
has its own flag). -/

/-- A file system: path to content. -/
def FS : Type := String → Option String

/-- Create/truncate-and-write a file. -/
def fsWrite (fs : FS) (p c : String) : FS :=
  fun q => if q = p then some c else fs q

/-- Remove a file. -/
def fsRemove (fs : FS) (p : String) : FS :=
  fun q => if q = p then none else fs q

/-- Environment-dependent failures of the fallible operations in
`cleanLog` and `rollback`, in program order.  `writeTemp` is a write
error surfaced by one of the checked `fmt.Fprintln` calls; `flushTemp`
is a write error that first surfaces at the final `writer.Flush()` /
`tempFile.Close()`, whose return values the code ignores — such a
failure is swallowed, and `flushedPart` is the content that had
actually reached the temp file when it happened (a truncated, possibly
empty, prefix of the serialization). -/
structure Faults where
  backupCopy : Bool
  openBackup : Bool
  readBackup : Bool
  createTemp : Bool
  writeTemp : Bool
  flushTemp : Bool
  renameTemp : Bool
  safetyCopy : Bool
  flushedPart : String
deriving DecidableEq, Repr

/-- The fault-free environment. -/
def noFaults : Faults :=
  ⟨false, false, false, false, false, false, false, false, ""⟩

/-- The backup path `fmt.Sprintf("%s.%s.bak", path, ts)` where `ts` is
the capture timestamp rendered by `time.Now().Format`. -/
def backupName (path ts : String) : String := path ++ "." ++ ts ++ ".bak"

/-- The `rollback` function: copy the backup to a safety copy
`backupPath + ".bak"`, move the backup over the original, move the
safety copy back into the backup slot.  If the safety copy cannot be
created (source unreadable or injected fault) nothing is restored. -/
def rollback (f : Faults) (originalPath backupPath : String) (fs : FS) : FS :=
  let doubleBak := backupPath ++ ".bak"
  match fs backupPath with
  | none => fs
  | some c =>
    if f.safetyCopy then fs
    else
      let fs1 := fsWrite fs doubleBak c
      let fs2 := fsWrite (fsRemove fs1 backupPath) originalPath c
      fsWrite (fsRemove fs2 doubleBak) backupPath c

/-- The `cleanLog` function (latest revision): copy the source to the
timestamped backup, read all lines from the backup, stop early on an
empty log, filter/group by date, trim to `maxRows`, write the result to
a temp file and atomically rename it over the original; every failure
the code detects after the backup was created triggers `rollback` via
the deferred `operationFailed` check.  The final `writer.Flush()` and
`tempFile.Close()` return values are ignored by the code, so a write
error surfacing only there (`f.flushTemp`) changes the temp file's
content to the truncated `f.flushedPart` but not the control flow: the
truncated file is still renamed over the original and the run reports
success.  Returns the final file system and the success flag
(`true` = `nil` error). -/
def cleanLogCore (f : Faults) (path backupPath tempPath : String) (maxRows : Nat)
    (dateFormat : String) (fs : FS) (c : String) : FS × Bool :=
  if f.backupCopy then (fsWrite fs backupPath "", false)
  else
    let fs1 := fsWrite fs backupPath c
    if f.openBackup then (rollback f path backupPath fs1, false)
    else
      let allLines := scanLines c
      if f.readBackup || allLines.any tooLong then
        (rollback f path backupPath fs1, false)
      else if allLines.isEmpty then (fs1, true)
      else
        let finalLines := trimLines maxRows (filteredLines dateFormat allLines)
        if f.createTemp then (rollback f path backupPath fs1, false)
        else if f.writeTemp then
          (rollback f path backupPath (fsWrite fs1 tempPath ""), false)
        else
          let written := if f.flushTemp then f.flushedPart else unlines finalLines
          let fs2 := fsWrite fs1 tempPath written
          if f.renameTemp then (rollback f path backupPath fs2, false)
          else (fsWrite (fsRemove fs2 tempPath) path written, true)

/-- Entry point: `copyFile` fails outright when the source cannot be
opened; otherwise the body above runs with the source content in hand. -/
def cleanLog (f : Faults) (path ts tempPath : String) (maxRows : Nat)
    (dateFormat : String) (fs : FS) : FS × Bool :=
  match fs path with
  | none => (fs, false)
  | some c => cleanLogCore f path (backupName path ts) tempPath maxRows dateFormat fs c

/-- A single line of one mebibyte (2^20 bytes), with no newline. -/
def bigLine : String := String.mk (List.replicate 1048576 'a')

/-- A file system holding only `"log"`, whose content is that one line. -/
def bigFS : FS := fsWrite (fun _ => none) "log" bigLine

/-! ## Basic lemmas about the embedding -/

theorem logDateFormat_length : logDateFormat.length = 19 := rfl

theorem fsWrite_self (fs : FS) (p c : String) : fsWrite fs p c p = some c := by
  simp [fsWrite]

theorem fsWrite_ne (fs : FS) (p c q : String) (h : q ≠ p) : fsWrite fs p c q = fs q := by
  simp [fsWrite, h]

theorem fsRemove_ne (fs : FS) (p q : String) (h : q ≠ p) : fsRemove fs p q = fs q := by
  simp [fsRemove, h]

theorem ne_of_length_ne {s t : String} (h : s.length ≠ t.length) : s ≠ t :=
  fun he => h (he ▸ rfl)

theorem backupName_length (path ts : String) :
    (backupName path ts).length = path.length + ts.length + 5 := by
  simp only [backupName, String.length_append]
  have h1 : ".".length = 1 := rfl
  have h2 : ".bak".length = 4 := rfl
  omega

theorem backupName_ne (path ts : String) : backupName path ts ≠ path := by
  apply ne_of_length_ne
  rw [backupName_length]
  omega

theorem backupName_bak_ne (path ts : String) : backupName path ts ++ ".bak" ≠ path := by
  apply ne_of_length_ne
  rw [String.length_append, backupName_length]
  omega

theorem trimLines_length (maxRows : Nat) (ls : List String) :
    (trimLines maxRows ls).length = min maxRows ls.length := by
  unfold trimLines
  split
  · rw [List.length_drop]
    omega
  · omega

theorem trimLines_eq_drop (maxRows : Nat) (ls : List String) :
    trimLines maxRows ls = ls.drop (ls.length - maxRows) := by
  unfold trimLines
  split
  · rfl
  · have h : ls.length - maxRows = 0 := by omega
    rw [h, List.drop_zero]

theorem splitLinesAux_ne_nil (cur l : List Char) : splitLinesAux cur l ≠ [] := by
  induction cur, l using splitLinesAux.induct <;> simp [splitLinesAux, *]

theorem scanLines_eq_nil (c : String) (h : scanLines c = []) : c = "" := by
  unfold scanLines at h
  split at h
  next heq =>
    cases c with
    | mk data =>
      simp only [String.data] at heq
      rw [heq]
  next heq => exact absurd h (splitLinesAux_ne_nil _ _)

theorem filteredLines_nil (df : String) : filteredLines df [] = [] := by
  unfold filteredLines
  split <;> rfl

theorem trimLines_nil (maxRows : Nat) : trimLines maxRows [] = [] := by
  simp [trimLines]

theorem unlines_nil : unlines [] = "" := rfl

theorem scanLines_empty : scanLines "" = [] := rfl

/-- If the backup exists and the safety copy succeeds, `rollback`
restores the original path from the backup and leaves the backup slot
populated with the same content. -/
theorem rollback_restores (f : Faults) (orig bak : String) (fs : FS) (c : String)
    (hsc : f.safetyCopy = false) (hb : fs bak = some c)
    (hod : orig ≠ bak ++ ".bak") :
    rollback f orig bak fs orig = some c ∧ rollback f orig bak fs bak = some c := by
  unfold rollback
  rw [hb]
  simp only [hsc, Bool.false_eq_true, if_false]
  constructor
  · by_cases ho : orig = bak <;> simp [fsWrite, fsRemove, ho, hod]
  · simp [fsWrite, fsRemove]

/-- When the source is readable, the run is the core body on its content. -/
theorem cleanLog_eq_core (f : Faults) (path ts tempPath : String) (maxRows : Nat)
    (dateFormat : String) (fs : FS) (c : String) (hc : fs path = some c) :
    cleanLog f path ts tempPath maxRows dateFormat fs =
      cleanLogCore f path (backupName path ts) tempPath maxRows dateFormat fs c := by
  unfold cleanLog
  rw [hc]

/-- A fault-free run on a readable source whose lines all fit the
scanner cap reports success. -/
theorem cleanLog_noFaults_ok (path ts tempPath : String) (maxRows : Nat)
    (dateFormat : String) (fs : FS) (c : String)
    (hc : fs path = some c)
    (hcap : (scanLines c).any tooLong = false) :
    (cleanLog noFaults path ts tempPath maxRows dateFormat fs).2 = true := by
  rw [cleanLog_eq_core noFaults path ts tempPath maxRows dateFormat fs c hc]
  unfold cleanLogCore
  by_cases he : (scanLines c).isEmpty <;> simp [noFaults, hcap, he]

/-- On any successful run — whatever happened at the ignored final
flush — the backup holds the exact pre-run content. -/
theorem cleanLog_success_backup (f : Faults) (path ts tempPath : String)
    (maxRows : Nat) (dateFormat : String) (fs : FS) (c : String)
    (hc : fs path = some c)
    (ht1 : tempPath ≠ backupName path ts)
    (hsucc : (cleanLog f path ts tempPath maxRows dateFormat fs).2 = true) :
    (cleanLog f path ts tempPath maxRows dateFormat fs).1 (backupName path ts) = some c := by
  rw [cleanLog_eq_core f path ts tempPath maxRows dateFormat fs c hc] at hsucc ⊢
  unfold cleanLogCore at hsucc ⊢
  cases hb : f.backupCopy <;> simp only [hb, Bool.false_eq_true, if_true, if_false] at hsucc ⊢
  cases ho : f.openBackup <;> simp only [ho, Bool.false_eq_true, if_true, if_false] at hsucc ⊢
  cases hr : (f.readBackup || (scanLines c).any tooLong) <;>
    simp only [hr, Bool.false_eq_true, if_true, if_false] at hsucc ⊢
  cases he : (scanLines c).isEmpty <;>
    simp only [he, Bool.false_eq_true, if_true, if_false] at hsucc ⊢
  case true => simp [fsWrite]
  case false =>
    cases hct : f.createTemp <;>
      simp only [hct, Bool.false_eq_true, if_true, if_false] at hsucc ⊢
    cases hwt : f.writeTemp <;>
      simp only [hwt, Bool.false_eq_true, if_true, if_false] at hsucc ⊢
    cases hrt : f.renameTemp <;>
      simp only [hrt, Bool.false_eq_true, if_true, if_false] at hsucc ⊢
    simp [fsWrite, fsRemove, backupName_ne path ts, Ne.symm ht1]

/-- On any successful run in which the final flush actually delivered
the buffered data (`flushTemp = false`), the original path holds the
serialized filtered-and-trimmed entries. -/
theorem cleanLog_success_content (f : Faults) (path ts tempPath : String)
    (maxRows : Nat) (dateFormat : String) (fs : FS) (c : String)
    (hc : fs path = some c)
    (hft : f.flushTemp = false)
    (hsucc : (cleanLog f path ts tempPath maxRows dateFormat fs).2 = true) :
    (cleanLog f path ts tempPath maxRows dateFormat fs).1 path =
      some (unlines (trimLines maxRows (filteredLines dateFormat (scanLines c)))) := by
  have hpb : path ≠ backupName path ts := Ne.symm (backupName_ne path ts)
  rw [cleanLog_eq_core f path ts tempPath maxRows dateFormat fs c hc] at hsucc ⊢
  unfold cleanLogCore at hsucc ⊢
  cases hb : f.backupCopy <;> simp only [hb, Bool.false_eq_true, if_true, if_false] at hsucc ⊢
  cases ho : f.openBackup <;> simp only [ho, Bool.false_eq_true, if_true, if_false] at hsucc ⊢
  cases hr : (f.readBackup || (scanLines c).any tooLong) <;>
    simp only [hr, Bool.false_eq_true, if_true, if_false] at hsucc ⊢
  cases he : (scanLines c).isEmpty <;>
    simp only [he, Bool.false_eq_true, if_true, if_false] at hsucc ⊢
  case true =>
    have h0 : c = "" := scanLines_eq_nil c (List.isEmpty_iff.mp he)
    subst h0
    simp only [scanLines_empty, filteredLines_nil, trimLines_nil, unlines_nil]
    simp [fsWrite, hpb, hc]
  case false =>
    cases hct : f.createTemp <;>
      simp only [hct, Bool.false_eq_true, if_true, if_false] at hsucc ⊢
    cases hwt : f.writeTemp <;>
      simp only [hwt, Bool.false_eq_true, if_true, if_false] at hsucc ⊢
    simp only [hft, Bool.false_eq_true, if_false] at hsucc ⊢
    cases hrt : f.renameTemp <;>
      simp only [hrt, Bool.false_eq_true, if_true, if_false] at hsucc ⊢
    simp [fsWrite]

/-- The swallowed-flush run: every checked operation succeeds but the
final `writer.Flush()` fails.  The code ignores the error, renames the
truncated temp file over the original and returns `nil`: the run
reports success while the original path holds only `g.flushedPart`
(the backup still holds the pre-run bytes). -/
theorem cleanLog_flush_swallowed (g : Faults) (path ts tempPath : String)
    (maxRows : Nat) (dateFormat : String) (fs : FS) (c : String)
    (hc : fs path = some c) (ht1 : tempPath ≠ backupName path ts)
    (h1 : g.backupCopy = false) (h2 : g.openBackup = false)
    (h3 : g.readBackup = false) (h4 : g.createTemp = false)
    (h5 : g.writeTemp = false) (h6 : g.flushTemp = true)
    (h7 : g.renameTemp = false)
    (hne : (scanLines c).isEmpty = false)
    (hcap : (scanLines c).any tooLong = false) :
    (cleanLog g path ts tempPath maxRows dateFormat fs).2 = true ∧
    (cleanLog g path ts tempPath maxRows dateFormat fs).1 path = some g.flushedPart ∧
    (cleanLog g path ts tempPath maxRows dateFormat fs).1 (backupName path ts) = some c := by
  rw [cleanLog_eq_core g path ts tempPath maxRows dateFormat fs c hc]
  unfold cleanLogCore
  simp only [h1, h2, h3, h4, h5, h6, h7, hne, hcap, Bool.false_eq_true, Bool.or_false,
    if_true, if_false]
  refine ⟨by trivial, ?_, ?_⟩
  · simp [fsWrite]
  · simp [fsWrite, fsRemove, backupName_ne path ts, Ne.symm ht1]

/-- Any failure after the backup was created (when the rollback safety
copy is creatable) leaves the original path restored to the pre-run
content and the backup still in place. -/
theorem cleanLog_failure_restores (f : Faults) (path ts tempPath : String)
    (maxRows : Nat) (dateFormat : String) (fs : FS) (c : String)
    (hc : fs path = some c)
    (hbc : f.backupCopy = false) (hsc : f.safetyCopy = false)
    (ht1 : tempPath ≠ backupName path ts)
    (hfail : (cleanLog f path ts tempPath maxRows dateFormat fs).2 = false) :
    (cleanLog f path ts tempPath maxRows dateFormat fs).1 path = some c ∧
    (cleanLog f path ts tempPath maxRows dateFormat fs).1 (backupName path ts) = some c := by
  have hod : path ≠ backupName path ts ++ ".bak" := Ne.symm (backupName_bak_ne path ts)
  rw [cleanLog_eq_core f path ts tempPath maxRows dateFormat fs c hc] at hfail ⊢
  unfold cleanLogCore at hfail ⊢
  simp only [hbc, Bool.false_eq_true, if_false] at hfail ⊢
  cases ho : f.openBackup <;> simp only [ho, Bool.false_eq_true, if_true, if_false] at hfail ⊢
  case true =>
    exact rollback_restores f path (backupName path ts) _ c hsc (fsWrite_self _ _ _) hod
  cases hr : (f.readBackup || (scanLines c).any tooLong) <;>
    simp only [hr, Bool.false_eq_true, if_true, if_false] at hfail ⊢
  case true =>
    exact rollback_restores f path (backupName path ts) _ c hsc (fsWrite_self _ _ _) hod
  cases he : (scanLines c).isEmpty <;>
    simp only [he, Bool.false_eq_true, if_true, if_false] at hfail ⊢
  case true => simp at hfail
  cases hct : f.createTemp <;>
    simp only [hct, Bool.false_eq_true, if_true, if_false] at hfail ⊢
  case true =>
    exact rollback_restores f path (backupName path ts) _ c hsc (fsWrite_self _ _ _) hod
  cases hwt : f.writeTemp <;>
    simp only [hwt, Bool.false_eq_true, if_true, if_false] at hfail ⊢
  case true =>
    have hb2 : fsWrite (fsWrite fs (backupName path ts) c) tempPath ""
        (backupName path ts) = some c := by
      rw [fsWrite_ne _ _ _ _ (Ne.symm ht1)]
      exact fsWrite_self _ _ _
    exact rollback_restores f path (backupName path ts) _ c hsc hb2 hod
  cases hrt : f.renameTemp <;>
    simp only [hrt, Bool.false_eq_true, if_true, if_false] at hfail ⊢
  case true =>
    have hb2 : ∀ w : String, fsWrite (fsWrite fs (backupName path ts) c) tempPath w
        (backupName path ts) = some c := by
      intro w
      rw [fsWrite_ne _ _ _ _ (Ne.symm ht1)]
      exact fsWrite_self _ _ _
    exact rollback_restores f path (backupName path ts) _ c hsc (hb2 _) hod
  case false => simp at hfail

/-! ## Lemmas about the filtering loop -/

theorem filterStep_keep (m : DateTime) (acc : List String) (line : String)
    (h : keepLine m line = true) : filterStep m acc line = line :: acc := by
  simp [filterStep, h]

theorem filterStep_skip_nil (m : DateTime) (line : String)
    (h : keepLine m line = false) : filterStep m [] line = [] := by
  simp [filterStep, h]

theorem filterStep_skip_cons (m : DateTime) (e : String) (es : List String)
    (line : String) (h : keepLine m line = false) :
    filterStep m (e :: es) line = (e ++ " " ++ line) :: es := by
  simp [filterStep, h]

theorem filterStep_length_skip (m : DateTime) (acc : List String) (line : String)
    (h : keepLine m line = false) : (filterStep m acc line).length = acc.length := by
  cases acc <;> simp [filterStep, h]

theorem foldl_filterStep_length (m : DateTime) (lines : List String) :
    ∀ acc : List String, (lines.foldl (filterStep m) acc).length =
      acc.length + (lines.filter (keepLine m)).length := by
  induction lines with
  | nil => intro acc; simp
  | cons l ls ih =>
    intro acc
    rw [List.foldl_cons, ih]
    cases hk : keepLine m l
    · rw [filterStep_length_skip m acc l hk]
      simp [List.filter_cons, hk]
    · rw [filterStep_keep m acc l hk]
      simp only [List.filter_cons, hk, if_true, List.length_cons]
      omega

theorem filterStep_ne_nil (m : DateTime) (acc : List String) (line : String)
    (h : acc ≠ []) : filterStep m acc line ≠ [] := by
  cases acc with
  | nil => exact absurd rfl h
  | cons e es => cases hk : keepLine m line <;> simp [filterStep, hk]

/-! ## Lemmas about substring containment -/

theorem isSeg_nil_left (h : List Char) : isSeg [] h = true := by
  cases h <;> simp [isSeg, leadMatch]

theorem leadMatch_self_append (n t : List Char) : leadMatch n (n ++ t) = true := by
  induction n with
  | nil => simp [leadMatch]
  | cons a n ih => simp [leadMatch, ih]

theorem isSeg_self_append (n t : List Char) : isSeg n (n ++ t) = true := by
  cases n with
  | nil => exact isSeg_nil_left _
  | cons a m =>
    have h1 : leadMatch (a :: m) (a :: (m ++ t)) = true := by
      rw [← List.cons_append]
      exact leadMatch_self_append (a :: m) t
    show isSeg (a :: m) (a :: (m ++ t)) = true
    simp [isSeg, h1]

theorem isSeg_append_left (a t : List Char) : isSeg t (a ++ t) = true := by
  induction a with
  | nil => simpa using isSeg_self_append t []
  | cons c a ih =>
    rw [List.cons_append]
    simp [isSeg, ih]

theorem leadMatch_append_right (n h t : List Char) (hm : leadMatch n h = true) :
    leadMatch n (h ++ t) = true := by
  induction n generalizing h with
  | nil => simp [leadMatch]
  | cons a n ih =>
    cases h with
    | nil => simp [leadMatch] at hm
    | cons b h' =>
      rw [List.cons_append]
      simp only [leadMatch, Bool.and_eq_true, beq_iff_eq] at hm ⊢
      exact ⟨hm.1, ih h' hm.2⟩

theorem isSeg_append_right (x h t : List Char) (hx : isSeg x h = true) :
    isSeg x (h ++ t) = true := by
  induction h with
  | nil =>
    simp only [isSeg, List.isEmpty_iff] at hx
    subst hx
    exact isSeg_nil_left _
  | cons c h' ih =>
    rw [List.cons_append]
    simp only [isSeg, Bool.or_eq_true] at hx ⊢
    rcases hx with h1 | h2
    · left
      rw [← List.cons_append]
      exact leadMatch_append_right x (c :: h') t h1
    · right
      exact ih h2

/-! ## Text-preservation lemmas for the filtering loop -/

theorem foldl_filterStep_extends (m : DateTime) (rest : List String) :
    ∀ acc : List String, ∀ e ∈ acc,
      ∃ t : String, e ++ t ∈ rest.foldl (filterStep m) acc := by
  induction rest with
  | nil =>
    intro acc e he
    exact ⟨"", by simpa [String.append_empty] using he⟩
  | cons y rest ih =>
    intro acc e he
    rw [List.foldl_cons]
    cases hk : keepLine m y
    case true =>
      rw [filterStep_keep m acc y hk]
      exact ih (y :: acc) e (List.mem_cons_of_mem y he)
    case false =>
      cases acc with
      | nil => cases he
      | cons a as =>
        rw [filterStep_skip_cons m a as y hk]
        rcases List.mem_cons.mp he with rfl | he'
        · obtain ⟨t, ht⟩ :=
            ih ((e ++ " " ++ y) :: as) (e ++ " " ++ y) (List.mem_cons_self _ _)
          refine ⟨" " ++ (y ++ t), ?_⟩
          simpa only [String.append_assoc] using ht
        · exact ih ((a ++ " " ++ y) :: as) e (List.mem_cons_of_mem _ he')

theorem foldl_filterStep_covers (m : DateTime) (rest : List String) :
    ∀ acc : List String, acc ≠ [] → ∀ x ∈ rest,
      ∃ e ∈ rest.foldl (filterStep m) acc, isSeg x.data e.data = true := by
  induction rest with
  | nil => intro acc _ x hx; cases hx
  | cons y rest ih =>
    intro acc hacc x hx
    rw [List.foldl_cons]
    rcases List.mem_cons.mp hx with rfl | hx'
    · cases hk : keepLine m x
      case true =>
        rw [filterStep_keep m acc x hk]
        obtain ⟨t, ht⟩ :=
          foldl_filterStep_extends m rest (x :: acc) x (List.mem_cons_self _ _)
        refine ⟨x ++ t, ht, ?_⟩
        rw [String.data_append]
        exact isSeg_self_append x.data t.data
      case false =>
        cases acc with
        | nil => exact absurd rfl hacc
        | cons a as =>
          rw [filterStep_skip_cons m a as x hk]
          obtain ⟨t, ht⟩ := foldl_filterStep_extends m rest
            ((a ++ " " ++ x) :: as) (a ++ " " ++ x) (List.mem_cons_self _ _)
          refine ⟨a ++ " " ++ x ++ t, ht, ?_⟩
          rw [String.data_append, String.data_append, String.data_append]
          exact isSeg_append_right x.data (a.data ++ " ".data ++ x.data) t.data
            (isSeg_append_left (a.data ++ " ".data) x.data)
    · cases hk : keepLine m y
      case true =>
        rw [filterStep_keep m acc y hk]
        exact ih (y :: acc) (by simp) x hx'
      case false =>
        cases acc with
        | nil => exact absurd rfl hacc
        | cons a as =>
          rw [filterStep_skip_cons m a as y hk]
          exact ih ((a ++ " " ++ y) :: as) (by simp) x hx'

/-! ## Scanning a newline-free content -/

theorem splitLinesAux_no_newline (l : List Char) :
    ∀ cur : List Char, '\n' ∉ l →
      splitLinesAux cur l = [String.mk (dropCR (cur.reverse ++ l))] := by
  induction l with
  | nil => intro cur _; simp [splitLinesAux]
  | cons c t ih =>
    intro cur h
    have hc : c ≠ '\n' := fun he => h (he ▸ List.mem_cons_self c t)
    have ht : '\n' ∉ t := fun he => h (List.mem_cons_of_mem c he)
    rw [splitLinesAux.eq_def]
    simp only [if_neg hc]
    rw [ih (c :: cur) ht]
    simp [List.append_assoc]

theorem scanLines_replicate_a (n : Nat) :
    scanLines (String.mk (List.replicate (n + 1) 'a')) =
      [String.mk (List.replicate (n + 1) 'a')] := by
  have hd : (String.mk (List.replicate (n + 1) 'a')).data =
      'a' :: List.replicate n 'a' := by
    show List.replicate (n + 1) 'a' = 'a' :: List.replicate n 'a'
    exact List.replicate_succ 'a' n
  have hnn : '\n' ∉ 'a' :: List.replicate n 'a' := by
    intro hmem
    rcases List.mem_cons.mp hmem with he | hm
    · exact absurd he (by decide)
    · exact absurd (List.eq_of_mem_replicate hm) (by decide)
  have hlast : ('a' :: List.replicate n 'a').getLast? = some 'a' := by
    rw [← List.replicate_succ, List.getLast?_eq_head?_reverse, List.reverse_replicate,
      List.replicate_succ]
    rfl
  unfold scanLines
  rw [hd]
  show splitLinesAux [] ('a' :: List.replicate n 'a') =
    [String.mk (List.replicate (n + 1) 'a')]
  rw [splitLinesAux_no_newline _ [] hnn, List.reverse_nil, List.nil_append]
  unfold dropCR
  rw [hlast, if_neg (by decide), ← List.replicate_succ]

theorem scanLines_bigLine : scanLines bigLine = [bigLine] := by
  have h := scanLines_replicate_a 1048575
  rw [show (1048575 : Nat) + 1 = 1048576 from rfl] at h
  exact h

theorem bigLine_length : bigLine.length = 1048576 := by
  show (String.mk (List.replicate 1048576 'a')).length = 1048576
  rw [String.mk_length, List.length_replicate]

/-! ## Claims -/

/-- C9: when the configured date string does not parse against the
layout (in particular when it is empty), the grouping/filtering stage is
the identity on the line sequence: every line becomes exactly one entry,
no merging happens, and the entry count handed to trimming equals the
input line count. -/
theorem c9_skip_identity (dateFormat : String) (lines : List String)
    (hd : parseTs dateFormat.data = none) :
    filteredLines dateFormat lines = lines ∧
    (filteredLines dateFormat lines).length = lines.length := by
  have h : filteredLines dateFormat lines = lines := by
    unfold filteredLines
    rw [hd]
  exact ⟨h, by rw [h]⟩

theorem c9_skip_identity_witness :
    parseTs "".data = none ∧
    (filteredLines "" ["alpha", "beta"] = ["alpha", "beta"] ∧
      (filteredLines "" ["alpha", "beta"]).length = ["alpha", "beta"].length) :=
  ⟨by decide, c9_skip_identity "" ["alpha", "beta"] (by decide)⟩

/-- C5 fails on the code: the final `writer.Flush()` error is ignored
(logcleaner.go), so a run whose only write error surfaces at that flush
is "successful" (returns `nil`) yet leaves a truncated file — here
empty — instead of the trailing slice of the filtered entries. -/
theorem c5_counterexample :
    (cleanLog (Faults.mk false false false false false true false false "")
        "log" "ts" "tmp" 5 "x" (fsWrite (fun _ => none) "log" "a\nb")).2 = true ∧
    (cleanLog (Faults.mk false false false false false true false false "")
        "log" "ts" "tmp" 5 "x" (fsWrite (fun _ => none) "log" "a\nb")).1 "log" =
      some "" ∧
    (cleanLog (Faults.mk false false false false false true false false "")
        "log" "ts" "tmp" 5 "x" (fsWrite (fun _ => none) "log" "a\nb")).1 "log" ≠
      some (unlines (trimLines 5 (filteredLines "x" (scanLines "a\nb")))) := by
  decide

/-- C5 amended: for every successful run in which the final flush
actually delivered the serialization (the ignored `writer.Flush()`
failure did not occur), the output entry count is
`min maxRows (filtered count)` and the written entries are exactly the
trailing contiguous slice (in original order) of the filtered
sequence — the whole sequence when it fits. -/
theorem c5_amended (f : Faults) (path ts tempPath : String) (maxRows : Nat)
    (dateFormat : String) (fs : FS) (c : String)
    (hc : fs path = some c)
    (hft : f.flushTemp = false)
    (hsucc : (cleanLog f path ts tempPath maxRows dateFormat fs).2 = true) :
    (cleanLog f path ts tempPath maxRows dateFormat fs).1 path =
      some (unlines (trimLines maxRows (filteredLines dateFormat (scanLines c)))) ∧
    (trimLines maxRows (filteredLines dateFormat (scanLines c))).length =
      min maxRows (filteredLines dateFormat (scanLines c)).length ∧
    trimLines maxRows (filteredLines dateFormat (scanLines c)) =
      (filteredLines dateFormat (scanLines c)).drop
        ((filteredLines dateFormat (scanLines c)).length - maxRows) :=
  ⟨cleanLog_success_content f path ts tempPath maxRows dateFormat fs c hc hft hsucc,
    trimLines_length maxRows _, trimLines_eq_drop maxRows _⟩

theorem c5_amended_witness :
    (fsWrite (fun _ => none) "log"
        "Line 1\nLine 2\nLine 3\nLine 4\nLine 5\nLine 6\nLine 7\nLine 8\nLine 9\nLine 10"
        "log" = some
        "Line 1\nLine 2\nLine 3\nLine 4\nLine 5\nLine 6\nLine 7\nLine 8\nLine 9\nLine 10" ∧
      noFaults.flushTemp = false ∧
      (cleanLog noFaults "log" "ts" "tmp" 5 "2006-01-02"
        (fsWrite (fun _ => none) "log"
          "Line 1\nLine 2\nLine 3\nLine 4\nLine 5\nLine 6\nLine 7\nLine 8\nLine 9\nLine 10")).2 = true) ∧
    ((cleanLog noFaults "log" "ts" "tmp" 5 "2006-01-02"
        (fsWrite (fun _ => none) "log"
          "Line 1\nLine 2\nLine 3\nLine 4\nLine 5\nLine 6\nLine 7\nLine 8\nLine 9\nLine 10")).1 "log" =
        some (unlines (trimLines 5 (filteredLines "2006-01-02" (scanLines
          "Line 1\nLine 2\nLine 3\nLine 4\nLine 5\nLine 6\nLine 7\nLine 8\nLine 9\nLine 10")))) ∧
      (trimLines 5 (filteredLines "2006-01-02" (scanLines
          "Line 1\nLine 2\nLine 3\nLine 4\nLine 5\nLine 6\nLine 7\nLine 8\nLine 9\nLine 10"))).length =
        min 5 (filteredLines "2006-01-02" (scanLines
          "Line 1\nLine 2\nLine 3\nLine 4\nLine 5\nLine 6\nLine 7\nLine 8\nLine 9\nLine 10")).length ∧
      trimLines 5 (filteredLines "2006-01-02" (scanLines
          "Line 1\nLine 2\nLine 3\nLine 4\nLine 5\nLine 6\nLine 7\nLine 8\nLine 9\nLine 10")) =
        (filteredLines "2006-01-02" (scanLines
          "Line 1\nLine 2\nLine 3\nLine 4\nLine 5\nLine 6\nLine 7\nLine 8\nLine 9\nLine 10")).drop
          ((filteredLines "2006-01-02" (scanLines
            "Line 1\nLine 2\nLine 3\nLine 4\nLine 5\nLine 6\nLine 7\nLine 8\nLine 9\nLine 10")).length - 5)) :=
  ⟨⟨by decide, rfl, by decide⟩,
    c5_amended noFaults "log" "ts" "tmp" 5 "2006-01-02" _ _ (by decide) rfl (by decide)⟩

/-- C2: the run first copies the source byte-for-byte to the sibling
path `backupName path ts` (built from the source path and the capture
timestamp); on every successful run that backup still holds the exact
pre-run content afterward, and when the backup copy itself fails the
original path is untouched, no further stage runs and the run reports
the error. -/
theorem c2_backup_contract (f g : Faults) (path ts tempPath : String)
    (maxRows : Nat) (dateFormat : String) (fs : FS) (c : String)
    (hc : fs path = some c) (ht1 : tempPath ≠ backupName path ts)
    (hg : g.backupCopy = true) :
    ((cleanLog f path ts tempPath maxRows dateFormat fs).2 = true →
      (cleanLog f path ts tempPath maxRows dateFormat fs).1 (backupName path ts) = some c) ∧
    ((cleanLog g path ts tempPath maxRows dateFormat fs).1 path = some c ∧
      (cleanLog g path ts tempPath maxRows dateFormat fs).2 = false) := by
  constructor
  · intro hs
    exact cleanLog_success_backup f path ts tempPath maxRows dateFormat fs c hc ht1 hs
  · rw [cleanLog_eq_core g path ts tempPath maxRows dateFormat fs c hc]
    unfold cleanLogCore
    rw [hg]
    simp only [if_true]
    refine ⟨?_, by trivial⟩
    rw [fsWrite_ne fs (backupName path ts) "" path (Ne.symm (backupName_ne path ts))]
    exact hc

theorem c2_backup_contract_witness :
    (fsWrite (fun _ => none) "log" "a\nb" "log" = some "a\nb" ∧
      (Faults.mk true false false false false false false false "").backupCopy = true) ∧
    ((cleanLog noFaults "log" "ts" "tmp" 1 "x"
        (fsWrite (fun _ => none) "log" "a\nb")).2 = true →
      (cleanLog noFaults "log" "ts" "tmp" 1 "x"
        (fsWrite (fun _ => none) "log" "a\nb")).1 (backupName "log" "ts") = some "a\nb") ∧
    ((cleanLog (Faults.mk true false false false false false false false "") "log" "ts" "tmp" 1 "x"
        (fsWrite (fun _ => none) "log" "a\nb")).1 "log" = some "a\nb" ∧
      (cleanLog (Faults.mk true false false false false false false false "") "log" "ts" "tmp" 1 "x"
        (fsWrite (fun _ => none) "log" "a\nb")).2 = false) :=
  ⟨⟨by decide, rfl⟩,
    (c2_backup_contract noFaults (Faults.mk true false false false false false false false "")
      "log" "ts" "tmp" 1 "x" _ _ (by decide) (by decide) rfl).1,
    (c2_backup_contract noFaults (Faults.mk true false false false false false false false "")
      "log" "ts" "tmp" 1 "x" _ _ (by decide) (by decide) rfl).2⟩

/-- C3 fails on the code: a write error that first surfaces at the
final `writer.Flush()` is a write failure occurring after the backup
was created, yet the code ignores its return value: no rollback runs,
the truncated temp file (here empty) is renamed over the original —
which therefore is not byte-identical to its pre-run state — and the
run returns `nil`. -/
theorem c3_counterexample :
    (cleanLog (Faults.mk false false false false false true false false "")
        "log" "ts" "tmp" 2 "x" (fsWrite (fun _ => none) "log" "a\nb\nc")).2 = true ∧
    (cleanLog (Faults.mk false false false false false true false false "")
        "log" "ts" "tmp" 2 "x" (fsWrite (fun _ => none) "log" "a\nb\nc")).1 "log" =
      some "" ∧
    (cleanLog (Faults.mk false false false false false true false false "")
        "log" "ts" "tmp" 2 "x" (fsWrite (fun _ => none) "log" "a\nb\nc")).1 "log" ≠
      some "a\nb\nc" := by
  decide

/-- C3 amended: every failure the code detects after the backup was
created — open/read error, oversized line, temp-file creation, a write
error surfaced by `fmt.Fprintln`, or the final rename — triggers
`rollback`, and when the safety copy can be created the original path
is restored byte-identically and the backup still exists with the same
content.  A write error that first surfaces at the ignored final
`writer.Flush()` is the exception: it is swallowed, no rollback runs,
the truncated content is renamed into place and the run reports
success (only the backup still holds the pre-run bytes). -/
theorem c3_amended (f g : Faults) (path ts tempPath : String) (maxRows : Nat)
    (dateFormat : String) (fs : FS) (c : String)
    (hc : fs path = some c)
    (hbc : f.backupCopy = false) (hsc : f.safetyCopy = false)
    (ht1 : tempPath ≠ backupName path ts)
    (hfail : (cleanLog f path ts tempPath maxRows dateFormat fs).2 = false)
    (h1 : g.backupCopy = false) (h2 : g.openBackup = false)
    (h3 : g.readBackup = false) (h4 : g.createTemp = false)
    (h5 : g.writeTemp = false) (h6 : g.flushTemp = true)
    (h7 : g.renameTemp = false)
    (hne : (scanLines c).isEmpty = false)
    (hcap : (scanLines c).any tooLong = false) :
    ((cleanLog f path ts tempPath maxRows dateFormat fs).1 path = some c ∧
      (cleanLog f path ts tempPath maxRows dateFormat fs).1 (backupName path ts) = some c) ∧
    ((cleanLog g path ts tempPath maxRows dateFormat fs).2 = true ∧
      (cleanLog g path ts tempPath maxRows dateFormat fs).1 path = some g.flushedPart ∧
      (cleanLog g path ts tempPath maxRows dateFormat fs).1 (backupName path ts) = some c) :=
  ⟨cleanLog_failure_restores f path ts tempPath maxRows dateFormat fs c hc hbc hsc ht1 hfail,
    cleanLog_flush_swallowed g path ts tempPath maxRows dateFormat fs c hc ht1
      h1 h2 h3 h4 h5 h6 h7 hne hcap⟩

theorem c3_amended_witness :
    ((cleanLog (Faults.mk false false false false false false true false "")
        "log" "ts" "tmp" 2 "x" (fsWrite (fun _ => none) "log" "a\nb\nc")).2 = false ∧
      (Faults.mk false false false false false true false false "junk").flushTemp = true) ∧
    (((cleanLog (Faults.mk false false false false false false true false "")
        "log" "ts" "tmp" 2 "x" (fsWrite (fun _ => none) "log" "a\nb\nc")).1 "log" =
        some "a\nb\nc" ∧
      (cleanLog (Faults.mk false false false false false false true false "")
        "log" "ts" "tmp" 2 "x" (fsWrite (fun _ => none) "log" "a\nb\nc")).1
          (backupName "log" "ts") = some "a\nb\nc") ∧
      ((cleanLog (Faults.mk false false false false false true false false "junk")
        "log" "ts" "tmp" 2 "x" (fsWrite (fun _ => none) "log" "a\nb\nc")).2 = true ∧
        (cleanLog (Faults.mk false false false false false true false false "junk")
          "log" "ts" "tmp" 2 "x" (fsWrite (fun _ => none) "log" "a\nb\nc")).1 "log" =
          some "junk" ∧
        (cleanLog (Faults.mk false false false false false true false false "junk")
          "log" "ts" "tmp" 2 "x" (fsWrite (fun _ => none) "log" "a\nb\nc")).1
            (backupName "log" "ts") = some "a\nb\nc")) :=
  ⟨⟨by decide, rfl⟩,
    c3_amended (Faults.mk false false false false false false true false "")
      (Faults.mk false false false false false true false false "junk")
      "log" "ts" "tmp" 2 "x" _ _ (by decide) rfl rfl (by decide) (by decide)
      rfl rfl rfl rfl rfl rfl rfl (by decide) (by decide)⟩

/-- C4 fails on the code: with the unparseable date string
`"irrelevant"`, the run does not fail with a parse error; it succeeds,
a backup is created, and the file is mutated (trimmed to the last two
lines). -/
theorem c4_counterexample :
    parseTs "irrelevant".data = none ∧
    (cleanLog noFaults "log" "ts" "tmp" 2 "irrelevant"
        (fsWrite (fun _ => none) "log" "a\nb\nc")).2 = true ∧
    (cleanLog noFaults "log" "ts" "tmp" 2 "irrelevant"
        (fsWrite (fun _ => none) "log" "a\nb\nc")).1 (backupName "log" "ts") =
      some "a\nb\nc" ∧
    (cleanLog noFaults "log" "ts" "tmp" 2 "irrelevant"
        (fsWrite (fun _ => none) "log" "a\nb\nc")).1 "log" = some "b\nc\n" := by
  decide

/-- C4 amended: when the configured date string does not parse against
the layout, the run does not fail: date filtering is skipped entirely
(the backup is still created first) and the file is trimmed by line
count only. -/
theorem c4_amended (path ts tempPath : String) (maxRows : Nat)
    (dateFormat : String) (fs : FS) (c : String)
    (hd : parseTs dateFormat.data = none)
    (hc : fs path = some c) (ht1 : tempPath ≠ backupName path ts)
    (hcap : (scanLines c).any tooLong = false) :
    (cleanLog noFaults path ts tempPath maxRows dateFormat fs).2 = true ∧
    (cleanLog noFaults path ts tempPath maxRows dateFormat fs).1 (backupName path ts) = some c ∧
    (cleanLog noFaults path ts tempPath maxRows dateFormat fs).1 path =
      some (unlines (trimLines maxRows (scanLines c))) := by
  have hid : filteredLines dateFormat (scanLines c) = scanLines c := by
    unfold filteredLines
    rw [hd]
  have hs := cleanLog_noFaults_ok path ts tempPath maxRows dateFormat fs c hc hcap
  have hb := cleanLog_success_backup noFaults path ts tempPath maxRows dateFormat fs c hc ht1 hs
  have hp := cleanLog_success_content noFaults path ts tempPath maxRows dateFormat fs c hc rfl hs
  exact ⟨hs, hb, hid ▸ hp⟩

theorem c4_amended_witness :
    parseTs "irrelevant".data = none ∧
    ((cleanLog noFaults "log" "ts" "tmp" 2 "irrelevant"
        (fsWrite (fun _ => none) "log" "a\nb\nc")).2 = true ∧
      (cleanLog noFaults "log" "ts" "tmp" 2 "irrelevant"
        (fsWrite (fun _ => none) "log" "a\nb\nc")).1 (backupName "log" "ts") = some "a\nb\nc" ∧
      (cleanLog noFaults "log" "ts" "tmp" 2 "irrelevant"
        (fsWrite (fun _ => none) "log" "a\nb\nc")).1 "log" =
        some (unlines (trimLines 2 (scanLines "a\nb\nc")))) :=
  ⟨by decide,
    c4_amended "log" "ts" "tmp" 2 "irrelevant" _ _ (by decide) (by decide) (by decide) (by decide)⟩

/-- C1 fails on the code: with date filtering active (minimum
`2025-07-01 00:00:00`), the line `2025-06-01 00:00:00 B` has a
parseable leading timestamp strictly before the minimum, yet its text
survives into the output, merged into the preceding kept entry instead
of being dropped. -/
theorem c1_counterexample :
    parseTs ("2025-06-01 00:00:00 B".data.take 19) =
      some (DateTime.mk 2025 6 1 0 0 0) ∧
    DateTime.before (DateTime.mk 2025 6 1 0 0 0) (DateTime.mk 2025 7 1 0 0 0) = true ∧
    parseTs "2025-07-01 00:00:00".data = some (DateTime.mk 2025 7 1 0 0 0) ∧
    filteredLines "2025-07-01 00:00:00"
        ["2025-08-01 00:00:00 A", "2025-06-01 00:00:00 B"] =
      ["2025-08-01 00:00:00 A 2025-06-01 00:00:00 B"] ∧
    isSeg "2025-06-01 00:00:00 B".data
      "2025-08-01 00:00:00 A 2025-06-01 00:00:00 B".data = true := by
  decide

/-- C1 amended: when date filtering is active, a line is retained as
its own entry iff its leading prefix parses to a timestamp `≥ minDate`
(so the output entry count equals the count of such main lines); a
line that fails the test is never kept as its own entry — it is
appended, space-separated, to the most recently kept entry when one
exists, and only contributes nothing when no entry has been kept yet. -/
theorem c1_amended (dateFormat : String) (m : DateTime) (lines : List String)
    (hm : parseTs dateFormat.data = some m) :
    (filteredLines dateFormat lines).length = (lines.filter (keepLine m)).length ∧
    (∀ acc line, keepLine m line = true → filterStep m acc line = line :: acc) ∧
    (∀ line, keepLine m line = false → filterStep m [] line = []) ∧
    (∀ e es line, keepLine m line = false →
      filterStep m (e :: es) line = (e ++ " " ++ line) :: es) := by
  refine ⟨?_, filterStep_keep m, filterStep_skip_nil m,
    fun e es line h => filterStep_skip_cons m e es line h⟩
  unfold filteredLines
  rw [hm]
  show ((lines.foldl (filterStep m) []).reverse).length = _
  rw [List.length_reverse]
  simpa using foldl_filterStep_length m lines []

theorem c1_amended_witness :
    parseTs "2025-07-01 00:00:00".data = some (DateTime.mk 2025 7 1 0 0 0) ∧
    ((filteredLines "2025-07-01 00:00:00"
        ["2025-08-01 00:00:00 A", "2025-06-01 00:00:00 B"]).length =
      (["2025-08-01 00:00:00 A", "2025-06-01 00:00:00 B"].filter
        (keepLine (DateTime.mk 2025 7 1 0 0 0))).length ∧
      (∀ acc line, keepLine (DateTime.mk 2025 7 1 0 0 0) line = true →
        filterStep (DateTime.mk 2025 7 1 0 0 0) acc line = line :: acc) ∧
      (∀ line, keepLine (DateTime.mk 2025 7 1 0 0 0) line = false →
        filterStep (DateTime.mk 2025 7 1 0 0 0) [] line = []) ∧
      (∀ e es line, keepLine (DateTime.mk 2025 7 1 0 0 0) line = false →
        filterStep (DateTime.mk 2025 7 1 0 0 0) (e :: es) line =
          (e ++ " " ++ line) :: es)) :=
  ⟨by decide,
    c1_amended "2025-07-01 00:00:00" (DateTime.mk 2025 7 1 0 0 0)
      ["2025-08-01 00:00:00 A", "2025-06-01 00:00:00 B"] (by decide)⟩

/-- C6 fails on the code: with date filtering active, the very first
line, which lacks a parseable leading timestamp, does not start a new
entry — it is discarded outright and its text is absent from the
output. -/
theorem c6_counterexample :
    parseTs ("hello world no timestamp ok".data.take 19) = none ∧
    parseTs "2025-01-01 00:00:00".data = some (DateTime.mk 2025 1 1 0 0 0) ∧
    filteredLines "2025-01-01 00:00:00"
        ["hello world no timestamp ok", "2025-08-01 00:00:00 x"] =
      ["2025-08-01 00:00:00 x"] ∧
    isSeg "hello world no timestamp ok".data "2025-08-01 00:00:00 x".data = false := by
  decide

/-- C6 amended: in the (merged) grouping pass a line whose prefix does
not pass the timestamp test is appended to the current entry with a
single-space separator when a kept entry exists; when no entry has been
kept yet the line is discarded, not kept as a new entry. -/
theorem c6_amended (dateFormat : String) (m : DateTime) (line e : String)
    (es : List String) (rest : List String)
    (hm : parseTs dateFormat.data = some m) (hl : keepLine m line = false) :
    filteredLines dateFormat (line :: rest) = filteredLines dateFormat rest ∧
    filterStep m (e :: es) line = (e ++ " " ++ line) :: es := by
  constructor
  · unfold filteredLines
    rw [hm]
    show ((line :: rest).foldl (filterStep m) []).reverse =
      (rest.foldl (filterStep m) []).reverse
    rw [List.foldl_cons, filterStep_skip_nil m line hl]
  · exact filterStep_skip_cons m e es line hl

theorem c6_amended_witness :
    parseTs "2025-01-01 00:00:00".data = some (DateTime.mk 2025 1 1 0 0 0) ∧
    keepLine (DateTime.mk 2025 1 1 0 0 0) "hello world no timestamp ok" = false ∧
    (filteredLines "2025-01-01 00:00:00"
        ("hello world no timestamp ok" :: ["2025-08-01 00:00:00 x"]) =
      filteredLines "2025-01-01 00:00:00" ["2025-08-01 00:00:00 x"] ∧
      filterStep (DateTime.mk 2025 1 1 0 0 0) ("E" :: [])
          "hello world no timestamp ok" =
        ("E" ++ " " ++ "hello world no timestamp ok") :: []) :=
  ⟨by decide, by decide,
    c6_amended "2025-01-01 00:00:00" (DateTime.mk 2025 1 1 0 0 0)
      "hello world no timestamp ok" "E" [] ["2025-08-01 00:00:00 x"]
      (by decide) (by decide)⟩

/-- C7 (spec-modelled): an entry survives the exclusion filter iff none
of the configured stubs occurs in its text (case-sensitive substring,
OR semantics), and the pipeline applies exclusion strictly before the
date filter, so an excluded entry never reaches the date filter. -/
theorem c7_exclusion_filter (stubs : List String) (m : DateTime)
    (entries : List String) (e : String) :
    (e ∈ excludeFilter stubs entries ↔
      e ∈ entries ∧ ∀ s ∈ stubs, containsStub s e = false) ∧
    filterPipeline stubs m entries = dateFilterSpec m (excludeFilter stubs entries) ∧
    ((∃ s ∈ stubs, containsStub s e = true) →
      e ∉ excludeFilter stubs entries ∧ e ∉ filterPipeline stubs m entries) := by
  have hmem : e ∈ excludeFilter stubs entries ↔
      e ∈ entries ∧ ∀ s ∈ stubs, containsStub s e = false := by
    unfold excludeFilter
    rw [List.mem_filter]
    simp [List.any_eq_false]
  refine ⟨hmem, rfl, ?_⟩
  rintro ⟨s, hs, hcs⟩
  have h1 : e ∉ excludeFilter stubs entries := by
    intro hmem'
    have h2 := (hmem.mp hmem').2 s hs
    rw [hcs] at h2
    cases h2
  refine ⟨h1, fun hp => ?_⟩
  unfold filterPipeline dateFilterSpec at hp
  exact h1 (List.mem_filter.mp hp).1

theorem c7_exclusion_filter_witness :
    (∃ s ∈ ["Path"], containsStub s "2025-08-01 00:00:00 a Path b" = true) ∧
    ("2025-08-01 00:00:00 a Path b" ∉
        excludeFilter ["Path"]
          ["2025-08-01 00:00:00 a Path b", "2025-08-01 00:00:00 ok"] ∧
      "2025-08-01 00:00:00 a Path b" ∉
        filterPipeline ["Path"] (DateTime.mk 2025 1 1 0 0 0)
          ["2025-08-01 00:00:00 a Path b", "2025-08-01 00:00:00 ok"]) :=
  ⟨by decide,
    (c7_exclusion_filter ["Path"] (DateTime.mk 2025 1 1 0 0 0)
      ["2025-08-01 00:00:00 a Path b", "2025-08-01 00:00:00 ok"]
      "2025-08-01 00:00:00 a Path b").2.2 (by decide)⟩

/-- C8 fails on the code: the scanner keeps `bufio`'s default cap, so a
single line of one mebibyte — which the claim demands be read without
error — makes the (otherwise fault-free) run fail with a read error. -/
theorem c8_counterexample :
    bigLine.length = 1048576 ∧
    tooLong bigLine = true ∧
    (cleanLog noFaults "log" "ts" "tmp" 5 "" bigFS).2 = false := by
  have hcap : tooLong bigLine = true := by
    show decide (maxScanTokenSize ≤ bigLine.length) = true
    rw [bigLine_length]
    decide
  refine ⟨bigLine_length, hcap, ?_⟩
  have hc : bigFS "log" = some bigLine := by
    show fsWrite (fun _ => none) "log" bigLine "log" = some bigLine
    exact fsWrite_self _ _ _
  rw [cleanLog_eq_core noFaults "log" "ts" "tmp" 5 "" bigFS bigLine hc]
  unfold cleanLogCore
  rw [scanLines_bigLine]
  simp [noFaults, hcap]

/-- C8 amended: the effective per-line cap is `bufio.MaxScanTokenSize`
(64 KiB), not 1 MiB: every run whose lines are all below the cap is
read without truncation or error, and any line at or above the cap is a
fatal read error that aborts the run. -/
theorem c8_amended (path ts tempPath : String) (maxRows : Nat)
    (dateFormat : String) (fs : FS) (c : String)
    (hc : fs path = some c) (ht1 : tempPath ≠ backupName path ts) :
    (∀ l : String, tooLong l = true ↔ 65536 ≤ l.length) ∧
    ((scanLines c).any tooLong = false →
      (cleanLog noFaults path ts tempPath maxRows dateFormat fs).2 = true ∧
      (cleanLog noFaults path ts tempPath maxRows dateFormat fs).1 path =
        some (unlines (trimLines maxRows (filteredLines dateFormat (scanLines c))))) ∧
    ((scanLines c).any tooLong = true →
      (cleanLog noFaults path ts tempPath maxRows dateFormat fs).2 = false) := by
  refine ⟨fun l => by simp [tooLong, maxScanTokenSize], fun hcap => ?_, fun hcap => ?_⟩
  · have hs := cleanLog_noFaults_ok path ts tempPath maxRows dateFormat fs c hc hcap
    exact ⟨hs,
      cleanLog_success_content noFaults path ts tempPath maxRows dateFormat fs c hc rfl hs⟩
  · rw [cleanLog_eq_core noFaults path ts tempPath maxRows dateFormat fs c hc]
    unfold cleanLogCore
    simp [noFaults, hcap]

theorem c8_amended_witness :
    (fsWrite (fun _ => none) "log" "short line" "log" = some "short line") ∧
    ((∀ l : String, tooLong l = true ↔ 65536 ≤ l.length) ∧
      ((scanLines "short line").any tooLong = false →
        (cleanLog noFaults "log" "ts" "tmp" 3 ""
          (fsWrite (fun _ => none) "log" "short line")).2 = true ∧
        (cleanLog noFaults "log" "ts" "tmp" 3 ""
          (fsWrite (fun _ => none) "log" "short line")).1 "log" =
          some (unlines (trimLines 3 (filteredLines "" (scanLines "short line"))))) ∧
      ((scanLines "short line").any tooLong = true →
        (cleanLog noFaults "log" "ts" "tmp" 3 ""
          (fsWrite (fun _ => none) "log" "short line")).2 = false)) :=
  ⟨by decide,
    c8_amended "log" "ts" "tmp" 3 "" (fsWrite (fun _ => none) "log" "short line")
      "short line" (by decide) (by decide)⟩

/-- C10: once a line has been kept as a main entry during active date
filtering, the text of every later input line survives into the output
entry sequence (as a contiguous substring of some entry): a later line
that fails to parse or is too old is appended to the most recently kept
entry rather than removed. -/
theorem c10_tail_text_preserved (dateFormat : String) (m : DateTime)
    (pre rest : List String) (l : String)
    (hm : parseTs dateFormat.data = some m) (hl : keepLine m l = true) :
    (∀ x ∈ rest, ∃ e ∈ filteredLines dateFormat (pre ++ l :: rest),
      isSeg x.data e.data = true) ∧
    (∀ e es y, keepLine m y = false →
      filterStep m (e :: es) y = (e ++ " " ++ y) :: es) := by
  constructor
  · intro x hx
    have hshape : filteredLines dateFormat (pre ++ l :: rest) =
        ((pre ++ l :: rest).foldl (filterStep m) []).reverse := by
      unfold filteredLines
      rw [hm]
    rw [hshape, List.foldl_append, List.foldl_cons, filterStep_keep m _ l hl]
    obtain ⟨e, he, hseg⟩ := foldl_filterStep_covers m rest
      (l :: pre.foldl (filterStep m) []) (by simp) x hx
    exact ⟨e, List.mem_reverse.mpr he, hseg⟩
  · exact fun e es y h => filterStep_skip_cons m e es y h

theorem c10_tail_text_preserved_witness :
    parseTs "2025-07-01 00:00:00".data = some (DateTime.mk 2025 7 1 0 0 0) ∧
    keepLine (DateTime.mk 2025 7 1 0 0 0) "2025-08-01 00:00:00 A" = true ∧
    (∃ e ∈ filteredLines "2025-07-01 00:00:00"
        (["zzz before"] ++ "2025-08-01 00:00:00 A" :: ["junk line"]),
      isSeg "junk line".data e.data = true) :=
  ⟨by decide, by decide,
    (c10_tail_text_preserved "2025-07-01 00:00:00" (DateTime.mk 2025 7 1 0 0 0)
      ["zzz before"] ["junk line"] "2025-08-01 00:00:00 A"
      (by decide) (by decide)).1 "junk line" (by decide)⟩

end Logcleaner
